import Mathlib

/-!
Verification of the WordMath embedding / similarity core.

Shallow embedding of the repository's TypeScript sources:
* `src/wordmath-app/src/lib/vector-operations.ts` — vector arithmetic,
  cosine similarity, normalization, distances, and the `findMostSimilar`
  ranker;
* `src/wordmath-app/src/lib/embedding-service.ts` and the extended copy in
  `src/unnamed/part_003` — the embedding cache (key normalization, TTL),
  cache statistics, batch resolution, and the deterministic mock
  (synthetic fallback) embedding;
* BudgetGuard (spec §4.4) — modelled from the spec, since the repository
  ships no BudgetGuard source file.

JavaScript floating-point numbers are modelled as elements of a linear
ordered field (instantiated at `ℝ` with `Real.sqrt` wherever `Math.sqrt`
matters); JavaScript string `toLowerCase`/`trim` are modelled directly on
the character list; timestamps (`Date.now()`) are natural numbers
(milliseconds); a thrown `Error` is an `Except` value.
-/

namespace WordMath

/-- Model of JavaScript `String.prototype.toLowerCase` (per-character
lowercasing), as used on cache keys and candidate words. -/
def toLowerCase (s : String) : String := ⟨s.data.map Char.toLower⟩

/-- Model of JavaScript `String.prototype.trim` (strip leading and trailing
whitespace), as used on cache keys. -/
def trimStr (s : String) : String :=
  ⟨((s.data.dropWhile Char.isWhitespace).reverse.dropWhile Char.isWhitespace).reverse⟩

/-- The error thrown by every binary vector operation on a length mismatch:
`Vector dimensions must match: ${v1.length} !== ${v2.length}` — it carries
both lengths. -/
structure DimErr where
  len1 : Nat
  len2 : Nat
deriving DecidableEq, Repr

section VectorOps

variable {α : Type} [LinearOrderedField α]

/-- `v.reduce((sum, val) => sum + val * val, 0)` — the sum of squares used
for magnitudes in `cosineSimilarity`, `normalizeVector` and
`generateMockEmbedding`. -/
def sumSq (v : List α) : α := v.foldl (fun sum val => sum + val * val) 0

/-- `v1.reduce((sum, val, idx) => sum + val * v2[idx], 0)` — the dot
product inside `cosineSimilarity` (only ever applied to equal-length
vectors, so pairing positionally via `zipWith` is exact). -/
def dotProduct (v1 v2 : List α) : α :=
  (List.zipWith (fun a b => a * b) v1 v2).foldl (fun sum x => sum + x) 0

/-- `addVectors` from vector-operations.ts: length guard, then pointwise
`v1[idx] + v2[idx]`. -/
def addVectors (v1 v2 : List α) : Except DimErr (List α) :=
  if v1.length ≠ v2.length then Except.error ⟨v1.length, v2.length⟩
  else Except.ok (List.zipWith (fun a b => a + b) v1 v2)

/-- `subtractVectors` from vector-operations.ts. -/
def subtractVectors (v1 v2 : List α) : Except DimErr (List α) :=
  if v1.length ≠ v2.length then Except.error ⟨v1.length, v2.length⟩
  else Except.ok (List.zipWith (fun a b => a - b) v1 v2)

/-- `multiplyVectorByScalar` from vector-operations.ts. -/
def multiplyVectorByScalar (vector : List α) (scalar : α) : List α :=
  vector.map (fun val => val * scalar)

/-- `cosineSimilarity` from vector-operations.ts.  `Math.sqrt` is passed in
as the parameter `sqrt` (instantiated with `Real.sqrt` at `α := ℝ`). -/
def cosineSimilarity (sqrt : α → α) (v1 v2 : List α) : Except DimErr α :=
  if v1.length ≠ v2.length then Except.error ⟨v1.length, v2.length⟩
  else
    let dot := dotProduct v1 v2
    let magnitude1 := sqrt (sumSq v1)
    let magnitude2 := sqrt (sumSq v2)
    if magnitude1 = 0 ∨ magnitude2 = 0 then Except.ok 0
    else Except.ok (dot / (magnitude1 * magnitude2))

/-- `normalizeVector` from vector-operations.ts: returns the input
unchanged when the magnitude is zero, else divides every entry by the
magnitude. -/
def normalizeVector (sqrt : α → α) (vector : List α) : List α :=
  let magnitude := sqrt (sumSq vector)
  if magnitude = 0 then vector
  else vector.map (fun val => val / magnitude)

/-- `euclideanDistance` from vector-operations.ts. -/
def euclideanDistance (sqrt : α → α) (v1 v2 : List α) : Except DimErr α :=
  if v1.length ≠ v2.length then Except.error ⟨v1.length, v2.length⟩
  else Except.ok (sqrt ((List.zipWith (fun a b => (a - b) * (a - b)) v1 v2).foldl
    (fun sum x => sum + x) 0))

/-- `manhattanDistance` from vector-operations.ts. -/
def manhattanDistance (v1 v2 : List α) : Except DimErr α :=
  if v1.length ≠ v2.length then Except.error ⟨v1.length, v2.length⟩
  else Except.ok ((List.zipWith (fun a b => |a - b|) v1 v2).foldl (fun sum x => sum + x) 0)

/-- A candidate entry handed to `findMostSimilar`:
`{ vector: number[]; word: string; language?: string }`. -/
structure Candidate (α : Type) where
  vector : List α
  word : String
  language : Option String

/-- A ranked output entry of `findMostSimilar`:
`{ word: string; similarity: number; language?: string }`. -/
structure RankedResult (α : Type) where
  word : String
  similarity : α
  language : Option String
deriving DecidableEq

/-- The `.filter(candidate => !excludeWords.includes(candidate.word.toLowerCase()))`
stage of `findMostSimilar`.  Note the source lowercases only the candidate
word, never the `excludeWords` entries. -/
def keptCandidates (excludeWords : List String) (candidateVectors : List (Candidate α)) :
    List (Candidate α) :=
  candidateVectors.filter (fun candidate => ¬ excludeWords.contains (toLowerCase candidate.word))

/-- The `.map(candidate => ({word, similarity: cosineSimilarity(...), language}))`
stage of `findMostSimilar`; a `DimensionMismatch` thrown by
`cosineSimilarity` propagates out. -/
def scoreCandidates (sqrt : α → α) (targetVector : List α) (candidates : List (Candidate α)) :
    Except DimErr (List (RankedResult α)) :=
  candidates.mapM (fun candidate =>
    (cosineSimilarity sqrt targetVector candidate.vector).map
      (fun s => ⟨candidate.word, s, candidate.language⟩))

/-- Stable insertion for descending-by-similarity order: the new element is
placed before the first element whose similarity is `≤` its own, hence
after every strictly-greater element and before every equal one. -/
def insertDesc (a : RankedResult α) : List (RankedResult α) → List (RankedResult α)
  | [] => [a]
  | b :: l => if b.similarity ≤ a.similarity then a :: b :: l else b :: insertDesc a l

/-- The `.sort((a, b) => b.similarity - a.similarity)` stage of
`findMostSimilar`.  JavaScript `Array.prototype.sort` is stable and, with
this comparator, orders by descending similarity; a stable insertion sort
produces exactly that (unique) permutation. -/
def sortBySimilarityDesc : List (RankedResult α) → List (RankedResult α)
  | [] => []
  | x :: xs => insertDesc x (sortBySimilarityDesc xs)

/-- `findMostSimilar` from vector-operations.ts: filter out excluded words,
score by cosine similarity, sort descending (stably), `slice(0, topK)`. -/
def findMostSimilar (sqrt : α → α) (targetVector : List α)
    (candidateVectors : List (Candidate α)) (topK : Nat) (excludeWords : List String) :
    Except DimErr (List (RankedResult α)) :=
  (scoreCandidates sqrt targetVector (keptCandidates excludeWords candidateVectors)).map
    (fun similarities => (sortBySimilarityDesc similarities).take topK)

end VectorOps

section Cache

variable {α : Type}

/-- A cache value: `{ embedding: number[]; timestamp: number }`. -/
structure CacheEntry (α : Type) where
  embedding : List α
  timestamp : Nat

/-- `cacheTimeout = 24 * 60 * 60 * 1000` (24 hours in milliseconds). -/
def cacheTimeout : Nat := 24 * 60 * 60 * 1000

/-- `const cacheKey = text.toLowerCase().trim()` — the key normalization
applied before every cache lookup and store. -/
def cacheKeyOf (text : String) : String := trimStr (toLowerCase text)

/-- JavaScript `Map.prototype.get` on an insertion-ordered association
list. -/
def mapGet (m : List (String × β)) (k : String) : Option β :=
  (m.find? (fun p => p.1 == k)).map (fun p => p.2)

/-- JavaScript `Map.prototype.set`: replace the value in place if the key
exists, else append. -/
def mapSet (m : List (String × β)) (k : String) (v : β) : List (String × β) :=
  match m with
  | [] => [(k, v)]
  | (k0, v0) :: rest => if k0 = k then (k0, v) :: rest else (k0, v0) :: mapSet rest k v

/-- The cache-consultation step of `getEmbedding`:
`const cached = this.cache.get(cacheKey); if (cached && Date.now() - cached.timestamp < this.cacheTimeout) return cached.embedding;`
A lookup never mutates the cache; a stale entry is merely ignored. -/
def cacheLookup (cache : List (String × CacheEntry α)) (text : String) (now ttl : Nat) :
    Option (List α) :=
  match mapGet cache (cacheKeyOf text) with
  | some cached => if now - cached.timestamp < ttl then some cached.embedding else none
  | none => none

/-- The write-through step of `getEmbedding`:
`this.cache.set(cacheKey, { embedding, timestamp: Date.now() })`. -/
def cacheStore (cache : List (String × CacheEntry α)) (text : String)
    (embedding : List α) (now : Nat) : List (String × CacheEntry α) :=
  mapSet cache (cacheKeyOf text) ⟨embedding, now⟩

/-- The record returned by `getCacheStats`. -/
structure CacheStats where
  size : Nat
  hitRate : ℚ
deriving DecidableEq, Repr

/-- `getCacheStats` from embedding-service.ts: returns the map's size and a
hard-coded `hitRate: 0` ("Could implement hit rate tracking"). -/
def getCacheStats (cache : List (String × CacheEntry α)) : CacheStats :=
  { size := cache.length, hitRate := 0 }

/-- Observation of a sequence of cache lookups `(text, time)` against a
fixed cache state: counts `(hits, misses)` as the hit/miss branch of
`getEmbedding`'s cache consultation would classify each. -/
def runLookups (cache : List (String × CacheEntry α)) (ttl : Nat) :
    List (String × Nat) → Nat × Nat
  | [] => (0, 0)
  | (text, now) :: rest =>
    let hm := runLookups cache ttl rest
    if (cacheLookup cache text now ttl).isSome then (hm.1 + 1, hm.2) else (hm.1, hm.2 + 1)

end Cache

section Batch

variable {α : Type} [LinearOrderedField α]

/-- `getBatchEmbeddings` from embedding-service.ts.  The per-text awaited
`getEmbedding` call is abstracted as `resolve : String → Option (List α)`
(`none` = the call threw).  Returns the embeddings (one per input, in input
order; a zero vector `new Array(384).fill(0)` substituted for a failure)
together with the list of failed texts, modelling the
`console.error("Failed to get embedding for ...")` log emitted per
failure. -/
def getBatchEmbeddings (resolve : String → Option (List α)) :
    List String → List (List α) × List String
  | [] => ([], [])
  | text :: rest =>
    let acc := getBatchEmbeddings resolve rest
    match resolve text with
    | some embedding => (embedding :: acc.1, acc.2)
    | none => (List.replicate 384 0 :: acc.1, text :: acc.2)

end Batch

section MockEmbedding

variable {α : Type} [LinearOrderedField α]

/-- One step of the seeded generator in `generateMockEmbedding`:
`seed = (seed * 9301 + 49297) % 233280`. -/
def lcgNext (seed : Nat) : Nat := (seed * 9301 + 49297) % 233280

/-- The seed of `generateMockEmbedding`: the sum of the character codes of
the input text. -/
def mockSeed (text : String) : Nat := (text.data.map Char.toNat).foldl (fun s c => s + c) 0

/-- `dimension = 384` — the dimension of the multilingual model and of the
mock embedding. -/
def embeddingDimension : Nat := 384

/-- The raw (pre-normalization) entries of `generateMockEmbedding`:
`embedding[i] = (random() - 0.5) * 2` where `random()` advances the seed
and returns `seed / 233280`. -/
def mockEntries : Nat → Nat → List α
  | 0, _ => []
  | n + 1, seed =>
    let s := lcgNext seed
    (((s : α) / 233280) - 1 / 2) * 2 :: mockEntries n s

/-- `generateMockEmbedding` from `src/unnamed/part_003`: a deterministic
pseudo-vector seeded by the text's character codes, divided through by its
magnitude. -/
def generateMockEmbedding (sqrt : α → α) (text : String) : List α :=
  let embedding : List α := mockEntries embeddingDimension (mockSeed text)
  let magnitude := sqrt (sumSq embedding)
  embedding.map (fun val => val / magnitude)

end MockEmbedding

section Budget

/-- The decision returned by `BudgetGuard.allow` (spec §4.4). -/
inductive Decision where
  | Proceed
  | CacheOnly
  | Reject
deriving DecidableEq, Repr

/-- BudgetGuard configuration: sliding window length (ms), maximum
requests per window, daily budget. -/
structure BudgetConfig where
  windowMs : Nat
  maxRequests : Nat
  dailyBudget : ℚ

/-- BudgetGuard state (spec §3 BudgetState): recent request timestamps and
the cumulative daily spend estimate. -/
structure BudgetState where
  requestTimestamps : List Nat
  dailySpendEstimate : ℚ

/-- Modelled from the spec: `BudgetGuard.allow` (spec §4.4) — the
repository has no BudgetGuard source file under src/.  Algorithm, verbatim
from the spec: prune timestamps older than the window; if the remaining
count ≥ max-requests, return Reject; else if `dailySpend + costEstimate >
dailyBudget`, return CacheOnly; otherwise record the timestamp, add the
cost to the daily spend, and return Proceed.  (The wall-clock day-boundary
reset of the daily spend happens outside `allow` and is not modelled.) -/
def allow (cfg : BudgetConfig) (st : BudgetState) (now : Nat) (costEstimate : ℚ) :
    Decision × BudgetState :=
  let recent := st.requestTimestamps.filter (fun t => now - t < cfg.windowMs)
  if cfg.maxRequests ≤ recent.length then
    (Decision.Reject, { st with requestTimestamps := recent })
  else if cfg.dailyBudget < st.dailySpendEstimate + costEstimate then
    (Decision.CacheOnly, { st with requestTimestamps := recent })
  else
    (Decision.Proceed,
      { requestTimestamps := recent ++ [now],
        dailySpendEstimate := st.dailySpendEstimate + costEstimate })

end Budget

/-! ### General lemmas about sums of squares and dot products -/

section SumLemmas

variable {α : Type} [LinearOrderedField α]

theorem foldl_add_eq (f : α → α) : ∀ (l : List α) (c : α),
    l.foldl (fun s x => s + f x) c = c + (l.map f).sum
  | [], c => by simp
  | x :: l, c => by
    simp only [List.foldl_cons, List.map_cons, List.sum_cons, foldl_add_eq f l]
    ring

theorem sumSq_eq (l : List α) : sumSq l = (l.map (fun x => x * x)).sum := by
  simpa using foldl_add_eq (fun x => x * x) l 0

theorem sumSq_nil : sumSq ([] : List α) = 0 := rfl

theorem sumSq_cons (a : α) (l : List α) : sumSq (a :: l) = a * a + sumSq l := by
  simp [sumSq_eq]

theorem sumSq_nonneg (l : List α) : 0 ≤ sumSq l := by
  rw [sumSq_eq]
  apply List.sum_nonneg
  intro x hx
  obtain ⟨y, _, rfl⟩ := List.mem_map.mp hx
  exact mul_self_nonneg y

theorem sumSq_pos_of_mem {l : List α} {x : α} (hm : x ∈ l) (hx : x ≠ 0) : 0 < sumSq l := by
  induction l with
  | nil => cases hm
  | cons a l ih =>
    rw [sumSq_cons]
    rcases List.mem_cons.mp hm with rfl | hm2
    · have hp : 0 < x * x := mul_self_pos.mpr hx
      have := sumSq_nonneg l
      linarith
    · have := ih hm2
      have := mul_self_nonneg a
      linarith

theorem sumSq_map_div : ∀ (l : List α) (m : α),
    sumSq (l.map (fun x => x / m)) = sumSq l / (m * m)
  | [], m => by simp [sumSq]
  | a :: l, m => by
    rw [List.map_cons, sumSq_cons, sumSq_cons, sumSq_map_div l m, div_mul_div_comm, add_div]

theorem dotProduct_eq (v1 v2 : List α) :
    dotProduct v1 v2 = (List.zipWith (fun a b => a * b) v1 v2).sum := by
  simpa using foldl_add_eq (fun x => x) (List.zipWith (fun a b => a * b) v1 v2) 0

theorem dotProduct_nil_left (v : List α) : dotProduct ([] : List α) v = 0 := by
  simp [dotProduct]

theorem dotProduct_nil_right (v : List α) : dotProduct v ([] : List α) = 0 := by
  simp [dotProduct]

theorem dotProduct_cons (a b : α) (l1 l2 : List α) :
    dotProduct (a :: l1) (b :: l2) = a * b + dotProduct l1 l2 := by
  simp [dotProduct_eq]

theorem two_mul_le_of_sq_le {a b d s1 s2 : α} (h : d * d ≤ s1 * s2)
    (hs1 : 0 ≤ s1) (hs2 : 0 ≤ s2) : 2 * (a * b * d) ≤ a * a * s2 + b * b * s1 := by
  rcases eq_or_lt_of_le hs1 with heq | hpos
  · have hd0 : d * d ≤ 0 := by rw [← heq] at h; linarith [h, mul_self_nonneg d]
    have hd : d = 0 := by
      have hnn := mul_self_nonneg d
      have : d * d = 0 := le_antisymm hd0 hnn
      exact mul_self_eq_zero.mp this
    subst hd
    rw [← heq]
    nlinarith [mul_nonneg (mul_self_nonneg a) hs2]
  · nlinarith [sq_nonneg (a * d - b * s1), mul_pos hpos hpos, h, hpos]

/-- Cauchy–Schwarz for the list dot product, the key fact behind the
cosine-similarity range. -/
theorem dotProduct_sq_le : ∀ (v1 v2 : List α),
    dotProduct v1 v2 * dotProduct v1 v2 ≤ sumSq v1 * sumSq v2
  | [], v2 => by simp [dotProduct_nil_left, sumSq_nil]
  | v1, [] => by
    simp only [dotProduct_nil_right, sumSq_nil, mul_zero, zero_mul, le_refl]
  | a :: l1, b :: l2 => by
    have ih := dotProduct_sq_le l1 l2
    have h1 := sumSq_nonneg l1
    have h2 := sumSq_nonneg l2
    have haux := two_mul_le_of_sq_le (a := a) (b := b) ih h1 h2
    rw [dotProduct_cons, sumSq_cons, sumSq_cons]
    nlinarith [haux, ih]

end SumLemmas

/-! ### Lemmas about cosine similarity over the reals -/

theorem cosineSimilarity_ok_of_length {α : Type} [LinearOrderedField α]
    (sqrt : α → α) {v1 v2 : List α} (h : v1.length = v2.length) :
    ∃ r, cosineSimilarity sqrt v1 v2 = Except.ok r := by
  rw [cosineSimilarity, if_neg (by simp [h])]
  by_cases hz : sqrt (sumSq v1) = 0 ∨ sqrt (sumSq v2) = 0
  · exact ⟨0, by simp [hz]⟩
  · exact ⟨dotProduct v1 v2 / (sqrt (sumSq v1) * sqrt (sumSq v2)), by simp [hz]⟩

theorem unit_magnitude_of_div (v : List ℝ) (h : Real.sqrt (sumSq v) ≠ 0) :
    Real.sqrt (sumSq (v.map (fun x => x / Real.sqrt (sumSq v)))) = 1 := by
  have hs : (0 : ℝ) ≤ sumSq v := sumSq_nonneg v
  have hmm : Real.sqrt (sumSq v) * Real.sqrt (sumSq v) = sumSq v := Real.mul_self_sqrt hs
  have hsne : sumSq v ≠ 0 := by
    intro h0
    exact h (by rw [h0, Real.sqrt_zero])
  rw [sumSq_map_div, hmm, div_self hsne, Real.sqrt_one]

theorem cosineSimilarity_ok_range {v1 v2 : List ℝ} {r : ℝ}
    (h : cosineSimilarity Real.sqrt v1 v2 = Except.ok r) : -1 ≤ r ∧ r ≤ 1 := by
  rw [cosineSimilarity] at h
  split at h
  · cases h
  · simp only [] at h
    split at h
    · cases h
      norm_num
    · rename_i hlen hz
      push_neg at hz
      obtain ⟨hm1, hm2⟩ := hz
      cases h
      have hp1 : 0 < Real.sqrt (sumSq v1) := lt_of_le_of_ne (Real.sqrt_nonneg _) (Ne.symm hm1)
      have hp2 : 0 < Real.sqrt (sumSq v2) := lt_of_le_of_ne (Real.sqrt_nonneg _) (Ne.symm hm2)
      have hpp : 0 < Real.sqrt (sumSq v1) * Real.sqrt (sumSq v2) := mul_pos hp1 hp2
      have hcs := dotProduct_sq_le v1 v2
      have habs : |dotProduct v1 v2| ≤ Real.sqrt (sumSq v1) * Real.sqrt (sumSq v2) := by
        have hmono : Real.sqrt (dotProduct v1 v2 * dotProduct v1 v2)
            ≤ Real.sqrt (sumSq v1 * sumSq v2) := Real.sqrt_le_sqrt hcs
        rw [Real.sqrt_mul_self_eq_abs] at hmono
        calc |dotProduct v1 v2| ≤ Real.sqrt (sumSq v1 * sumSq v2) := hmono
          _ = Real.sqrt (sumSq v1) * Real.sqrt (sumSq v2) :=
            Real.sqrt_mul (sumSq_nonneg v1) _
      rw [abs_le] at habs
      constructor
      · rw [le_div_iff₀ hpp]
        linarith [habs.1]
      · rw [div_le_one hpp]
        exact habs.2

/-- Evaluation of `cosineSimilarity` on the one-dimensional unit vector,
used by concrete instances below. -/
theorem cosineSimilarity_one :
    cosineSimilarity Real.sqrt [(1 : ℝ)] [1] = Except.ok 1 := by
  have hs : sumSq [(1 : ℝ)] = 1 := by norm_num [sumSq]
  have hd : dotProduct [(1 : ℝ)] [1] = 1 := by norm_num [dotProduct]
  rw [cosineSimilarity, if_neg (by norm_num)]
  simp only [hs, hd, Real.sqrt_one]
  rw [if_neg (by norm_num)]
  norm_num

/-! ### Lemmas about the ranker -/

section RankerLemmas

variable {α : Type} [LinearOrderedField α]

theorem scoreCandidates_ok (sqrt : α → α) {targetVector : List α} :
    ∀ {candidates : List (Candidate α)},
    (∀ c ∈ candidates, c.vector.length = targetVector.length) →
    ∃ scored, scoreCandidates sqrt targetVector candidates = Except.ok scored
  | [], _ => ⟨[], rfl⟩
  | c :: cs, h => by
    obtain ⟨r, hr⟩ := cosineSimilarity_ok_of_length sqrt
      (h c (List.mem_cons_self c cs)).symm
    obtain ⟨scored, hs⟩ := scoreCandidates_ok sqrt
      (fun c2 hc2 => h c2 (List.mem_cons_of_mem c hc2))
    refine ⟨⟨c.word, r, c.language⟩ :: scored, ?_⟩
    rw [scoreCandidates] at hs ⊢
    rw [List.mapM_cons, hr, hs]
    rfl

theorem mapM_ok_mem {β γ : Type} {f : β → Except DimErr γ} :
    ∀ {l : List β} {out : List γ}, l.mapM f = Except.ok out →
    ∀ r ∈ out, ∃ a ∈ l, f a = Except.ok r
  | [], out => by
    intro h r hr
    simp only [List.mapM_nil, pure] at h
    cases h
    cases hr
  | b :: l, out => by
    intro h r hr
    rw [List.mapM_cons] at h
    cases hfb : f b with
    | error e => rw [hfb] at h; simp [Bind.bind, Except.bind] at h
    | ok x =>
      rw [hfb] at h
      cases hml : l.mapM f with
      | error e =>
        rw [hml] at h
        simp [Bind.bind, Except.bind, pure, Except.pure] at h
      | ok xs =>
        rw [hml] at h
        simp only [Bind.bind, Except.bind, pure, Except.pure, Except.ok.injEq] at h
        subst h
        rcases List.mem_cons.mp hr with rfl | hr2
        · exact ⟨b, List.mem_cons_self b l, hfb⟩
        · obtain ⟨a, ha, hfa⟩ := mapM_ok_mem hml r hr2
          exact ⟨a, List.mem_cons_of_mem b ha, hfa⟩

theorem mem_insertDesc {a x : RankedResult α} : ∀ {l : List (RankedResult α)},
    x ∈ insertDesc a l ↔ x = a ∨ x ∈ l
  | [] => by simp [insertDesc]
  | b :: l => by
    rw [insertDesc]
    split
    · simp
    · rw [List.mem_cons, List.mem_cons, mem_insertDesc]
      tauto

theorem mem_sortBySimilarityDesc {x : RankedResult α} : ∀ {l : List (RankedResult α)},
    x ∈ sortBySimilarityDesc l ↔ x ∈ l
  | [] => Iff.rfl
  | b :: l => by
    rw [sortBySimilarityDesc, mem_insertDesc, List.mem_cons, mem_sortBySimilarityDesc]

theorem pairwise_insertDesc {a : RankedResult α} : ∀ {l : List (RankedResult α)},
    l.Pairwise (fun x y => y.similarity ≤ x.similarity) →
    (insertDesc a l).Pairwise (fun x y => y.similarity ≤ x.similarity)
  | [], _ => List.pairwise_singleton _ _
  | b :: l, hp => by
    rw [insertDesc]
    rcases List.pairwise_cons.mp hp with ⟨hb, hl⟩
    split
    · rename_i hba
      exact List.pairwise_cons.mpr ⟨by
        intro y hy
        rcases List.mem_cons.mp hy with rfl | hy2
        · exact hba
        · exact le_trans (hb y hy2) hba, hp⟩
    · rename_i hba
      push_neg at hba
      refine List.pairwise_cons.mpr ⟨?_, pairwise_insertDesc hl⟩
      intro y hy
      rcases mem_insertDesc.mp hy with rfl | hy2
      · exact le_of_lt hba
      · exact hb y hy2

theorem pairwise_sortBySimilarityDesc : ∀ (l : List (RankedResult α)),
    (sortBySimilarityDesc l).Pairwise (fun x y => y.similarity ≤ x.similarity)
  | [] => List.Pairwise.nil
  | _ :: xs => pairwise_insertDesc (pairwise_sortBySimilarityDesc xs)

theorem filter_insertDesc (s : α) (a : RankedResult α) : ∀ (l : List (RankedResult α)),
    (insertDesc a l).filter (fun r => r.similarity = s)
      = if a.similarity = s then a :: l.filter (fun r => r.similarity = s)
        else l.filter (fun r => r.similarity = s)
  | [] => by
    simp only [insertDesc, List.filter_singleton, List.filter_nil]
    split <;> simp_all
  | b :: l => by
    rw [insertDesc]
    split
    · rename_i hba
      by_cases has : a.similarity = s <;> simp [List.filter_cons, has]
    · rename_i hba
      push_neg at hba
      have hbs : ¬ (b.similarity = s ∧ a.similarity = s) := by
        rintro ⟨hb1, hb2⟩
        rw [hb1, hb2] at hba
        exact lt_irrefl s hba
      rw [List.filter_cons, List.filter_cons, filter_insertDesc s a l]
      by_cases has : a.similarity = s
      · have hbs2 : ¬ b.similarity = s := fun hb1 => hbs ⟨hb1, has⟩
        simp [has, hbs2]
      · simp [has]

/-- Stability of the descending sort: for every similarity value, the
elements carrying that value appear in the sorted output in exactly the
order they had in the input. -/
theorem filter_sortBySimilarityDesc (s : α) : ∀ (l : List (RankedResult α)),
    (sortBySimilarityDesc l).filter (fun r => r.similarity = s)
      = l.filter (fun r => r.similarity = s)
  | [] => rfl
  | x :: xs => by
    rw [sortBySimilarityDesc, filter_insertDesc, List.filter_cons,
      filter_sortBySimilarityDesc s xs]
    split <;> simp_all

theorem length_insertDesc (a : RankedResult α) : ∀ (l : List (RankedResult α)),
    (insertDesc a l).length = l.length + 1
  | [] => rfl
  | b :: l => by
    rw [insertDesc]
    split
    · rfl
    · simp [length_insertDesc a l]

theorem length_sortBySimilarityDesc : ∀ (l : List (RankedResult α)),
    (sortBySimilarityDesc l).length = l.length
  | [] => rfl
  | x :: xs => by
    rw [sortBySimilarityDesc, length_insertDesc, length_sortBySimilarityDesc xs,
      List.length_cons]

/-- Every entry of a successful `findMostSimilar` output arises from a
non-excluded candidate via a successful cosine-similarity computation. -/
theorem findMostSimilar_ok_mem {sqrt : α → α} {targetVector : List α}
    {candidateVectors : List (Candidate α)} {topK : Nat} {excludeWords : List String}
    {out : List (RankedResult α)}
    (hok : findMostSimilar sqrt targetVector candidateVectors topK excludeWords
      = Except.ok out) :
    ∀ r ∈ out, ∃ c ∈ keptCandidates excludeWords candidateVectors, ∃ s,
      cosineSimilarity sqrt targetVector c.vector = Except.ok s
      ∧ r = ⟨c.word, s, c.language⟩ := by
  rw [findMostSimilar] at hok
  cases hsc : scoreCandidates sqrt targetVector (keptCandidates excludeWords candidateVectors) with
  | error e => rw [hsc] at hok; cases hok
  | ok scored =>
    rw [hsc] at hok
    simp only [Except.map, Except.ok.injEq] at hok
    subst hok
    intro r hr
    have hr2 : r ∈ scored :=
      mem_sortBySimilarityDesc.mp (List.take_subset _ _ hr)
    rw [scoreCandidates] at hsc
    obtain ⟨c, hc, hfc⟩ := mapM_ok_mem hsc r hr2
    cases hcs : cosineSimilarity sqrt targetVector c.vector with
    | error e => rw [hcs] at hfc; cases hfc
    | ok s =>
      rw [hcs] at hfc
      simp only [Except.map, Except.ok.injEq] at hfc
      exact ⟨c, hc, s, hcs, hfc.symm⟩

end RankerLemmas

/-! ### Lemmas about the cache map -/

theorem mapGet_mapSet_self {β : Type} (k : String) (v : β) : ∀ (m : List (String × β)),
    mapGet (mapSet m k v) k = some v
  | [] => by simp [mapGet, mapSet, List.find?]
  | (k0, v0) :: rest => by
    rw [mapSet]
    split
    · rename_i heq
      simp [mapGet, List.find?, heq]
    · rename_i hne
      simp only [mapGet, List.find?]
      have hb : (k0 == k) = false := by simpa using hne
      rw [hb]
      exact mapGet_mapSet_self k v rest

/-! ### Lemmas about the mock embedding -/

theorem length_mockEntries {α : Type} [LinearOrderedField α] :
    ∀ (n seed : Nat), (mockEntries (α := α) n seed).length = n
  | 0, _ => rfl
  | n + 1, seed => by
    rw [mockEntries]
    simp [length_mockEntries n]

theorem entry_ne_zero {α : Type} [LinearOrderedField α] {v : Nat} (h : v ≠ 116640) :
    (((v : α) / 233280) - 1 / 2) * 2 ≠ 0 := by
  intro heq
  apply h
  have h2 : (v : α) / 233280 = 1 / 2 := by
    rcases mul_eq_zero.mp heq with h3 | h3
    · linarith [h3]
    · norm_num at h3
  have h3 : (v : α) = 116640 := by
    field_simp at h2
    linarith
  exact_mod_cast h3

theorem lcg_of_fixed : lcgNext 116640 = 165937 := by norm_num [lcgNext]

/-- For every seed, the raw mock-embedding vector is nonzero: the LCG
cannot output the single value (116640) that maps to a zero entry twice in
a row, so one of the first two entries is nonzero. -/
theorem sumSq_mockEntries_pos {α : Type} [LinearOrderedField α] (seed : Nat) :
    0 < sumSq (mockEntries (α := α) embeddingDimension seed) := by
  by_cases h : lcgNext seed = 116640
  · have hunfold : mockEntries (α := α) embeddingDimension seed
        = (((lcgNext seed : α) / 233280) - 1 / 2) * 2
          :: (((lcgNext (lcgNext seed) : α) / 233280) - 1 / 2) * 2
          :: mockEntries 382 (lcgNext (lcgNext seed)) := rfl
    have h2 : lcgNext (lcgNext seed) = 165937 := by rw [h]; exact lcg_of_fixed
    have hne : (((lcgNext (lcgNext seed) : α) / 233280) - 1 / 2) * 2 ≠ 0 := by
      apply entry_ne_zero
      rw [h2]
      norm_num
    refine sumSq_pos_of_mem ?_ hne
    rw [hunfold]
    exact List.mem_cons_of_mem _ (List.mem_cons_self _ _)
  · have hunfold : mockEntries (α := α) embeddingDimension seed
        = (((lcgNext seed : α) / 233280) - 1 / 2) * 2 :: mockEntries 383 (lcgNext seed) := rfl
    refine sumSq_pos_of_mem ?_ (entry_ne_zero h)
    rw [hunfold]
    exact List.mem_cons_self _ _

/-! ### Claims -/

/-- C1 (counterexample).  The claim says that after a lookup sequence with
H hits and M misses (H + M > 0), `getCacheStats` returns `hitRate = H /
(H + M)`.  Concretely: store "apple", then perform one lookup, a hit
(H = 1, M = 0); the claimed hit rate is 1 / (1 + 0) ≠ 0, yet
`getCacheStats` reports `hitRate = 0`. -/
theorem claimC1_cex :
    runLookups (cacheStore ([] : List (String × CacheEntry ℚ)) "apple" [1] 0)
      cacheTimeout [("apple", 5)] = (1, 0)
    ∧ (getCacheStats (cacheStore ([] : List (String × CacheEntry ℚ)) "apple" [1] 0)).hitRate
      = 0
    ∧ ((1 : ℚ) / (1 + 0) ≠ 0) :=
  ⟨by decide, by decide, by norm_num⟩

/-- C1 (amended): `getCacheStats` returns the current size together with a
`hitRate` that is always `0` — hit-rate tracking is not implemented — so
after any lookup sequence with H hits and M misses, the reported hit rate
is 0 and differs from H / (H + M) whenever H > 0. -/
theorem claimC1 {α : Type} (cache : List (String × CacheEntry α)) (ttl : Nat)
    (queries : List (String × Nat)) (H M : Nat)
    (_hrun : runLookups cache ttl queries = (H, M)) :
    (getCacheStats cache).hitRate = 0
    ∧ (0 < H → (getCacheStats cache).hitRate ≠ (H : ℚ) / ((H : ℚ) + (M : ℚ))) := by
  refine ⟨rfl, fun hH => ?_⟩
  have hpos : (0 : ℚ) < (H : ℚ) / ((H : ℚ) + (M : ℚ)) := by
    have h1 : (0 : ℚ) < (H : ℚ) := by exact_mod_cast hH
    have h2 : (0 : ℚ) ≤ (M : ℚ) := by exact_mod_cast Nat.zero_le M
    exact div_pos h1 (by linarith)
  show (0 : ℚ) ≠ (H : ℚ) / ((H : ℚ) + (M : ℚ))
  exact ne_of_lt hpos

/-- C1 (witness): the amended theorem applied to the concrete one-hit run
of the counterexample. -/
theorem claimC1_witness :
    (getCacheStats (cacheStore ([] : List (String × CacheEntry ℚ)) "apple" [1] 0)).hitRate = 0
    ∧ (getCacheStats (cacheStore ([] : List (String × CacheEntry ℚ)) "apple" [1] 0)).hitRate
      ≠ ((1 : Nat) : ℚ) / (((1 : Nat) : ℚ) + ((0 : Nat) : ℚ)) := by
  have h := claimC1 (cacheStore ([] : List (String × CacheEntry ℚ)) "apple" [1] 0)
    cacheTimeout [("apple", 5)] 1 0 (by decide)
  exact ⟨h.1, h.2 (by decide)⟩

/-- C2: BudgetGuard rate limiting (modelled from the spec).  If at least
`maxRequests` recorded timestamps lie within the sliding window of `now`,
`allow` Rejects; once the window has elapsed past every recorded timestamp
(and the daily budget is not exceeded, with a positive request limit), a
subsequent request Proceeds again. -/
theorem claimC2 (cfg : BudgetConfig) (st : BudgetState) (now : Nat) (costEstimate : ℚ) :
    (cfg.maxRequests ≤ (st.requestTimestamps.filter (fun t => now - t < cfg.windowMs)).length →
      (allow cfg st now costEstimate).1 = Decision.Reject)
    ∧ (0 < cfg.maxRequests →
      (∀ t ∈ st.requestTimestamps, cfg.windowMs ≤ now - t) →
      st.dailySpendEstimate + costEstimate ≤ cfg.dailyBudget →
      (allow cfg st now costEstimate).1 = Decision.Proceed) := by
  constructor
  · intro hfull
    rw [allow]
    simp only [if_pos hfull]
  · intro hmax helapsed hbudget
    have hempty : st.requestTimestamps.filter (fun t => now - t < cfg.windowMs) = [] := by
      apply List.filter_eq_nil_iff.mpr
      intro t ht
      simpa using not_lt.mpr (helapsed t ht)
    rw [allow, hempty]
    rw [if_neg (by simpa using Nat.pos_iff_ne_zero.mp hmax),
      if_neg (by simpa using not_lt.mpr hbudget)]

/-- C2 (witness): with a 60000 ms window and a limit of 2, two in-window
timestamps force Reject at time 30; at time 70000 the window has elapsed
and the request Proceeds. -/
theorem claimC2_witness :
    (allow ⟨60000, 2, 100⟩ ⟨[10, 20], 0⟩ 30 1).1 = Decision.Reject
    ∧ (allow ⟨60000, 2, 100⟩ ⟨[10, 20], 0⟩ 70000 1).1 = Decision.Proceed := by
  constructor
  · exact (claimC2 ⟨60000, 2, 100⟩ ⟨[10, 20], 0⟩ 30 1).1 (by decide)
  · exact (claimC2 ⟨60000, 2, 100⟩ ⟨[10, 20], 0⟩ 70000 1).2 (by decide)
      (by decide) (by norm_num)

/-- C3 (counterexample).  The claim says a get still returns the stored
vector when `now - createdAt` does **not exceed** the TTL.  Concretely:
store at time 0, look up at time 86400000 (= the 24 h TTL exactly, so
`now - createdAt ≤ ttl`); the code's strict comparison
`now - timestamp < ttl` fails and the entry is treated as absent. -/
theorem claimC3_cex :
    86400000 - 0 ≤ cacheTimeout
    ∧ cacheLookup (cacheStore ([] : List (String × CacheEntry ℚ)) "Apple " [1] 0)
        "apple" 86400000 cacheTimeout = none := by decide

/-- C3 (amended): keys are normalized by lowercasing and trimming on both
store and lookup (so "Apple " and "apple" share one entry), and a get
returns the stored vector exactly when `now - createdAt < ttl`, treating
the entry as absent when `now - createdAt ≥ ttl`; lookups never mutate the
cache — an expired entry is merely ignored until overwritten. -/
theorem claimC3 {α : Type} (cache : List (String × CacheEntry α)) (t1 t2 : String)
    (embedding : List α) (tStore now ttl : Nat)
    (hkey : cacheKeyOf t1 = cacheKeyOf t2) :
    cacheLookup (cacheStore cache t1 embedding tStore) t2 now ttl
      = if now - tStore < ttl then some embedding else none := by
  rw [cacheLookup, cacheStore, ← hkey, mapGet_mapSet_self]

/-- C3 (witness): storing under "Apple " and looking up "apple" shortly
afterwards finds the entry. -/
theorem claimC3_witness :
    cacheLookup (cacheStore ([] : List (String × CacheEntry ℚ)) "Apple " [1] 0)
        "apple" 5 cacheTimeout
      = if 5 - 0 < cacheTimeout then some [1] else none :=
  claimC3 ([] : List (String × CacheEntry ℚ)) "Apple " "apple" [1] 0 5 cacheTimeout
    (by decide)

/-- C4 (counterexample).  The claim says a candidate whose word matches an
`excludeWords` entry case-insensitively never appears in the output.
Concretely: candidate "Man" and exclude list ["MAN"] match
case-insensitively (both lowercase to "man"), yet "Man" is returned,
because the source lowercases only the candidate side and compares it
verbatim against the (uppercase) exclude entry. -/
theorem claimC4_cex :
    findMostSimilar Real.sqrt [(1 : ℝ)] [⟨[(1 : ℝ)], "Man", none⟩] 3 ["MAN"]
      = Except.ok [⟨"Man", 1, none⟩]
    ∧ toLowerCase "Man" = toLowerCase "MAN" := by
  constructor
  · have hkept : keptCandidates ["MAN"] [⟨[(1 : ℝ)], "Man", none⟩]
        = [⟨[(1 : ℝ)], "Man", none⟩] := rfl
    rw [findMostSimilar, hkept, scoreCandidates, List.mapM_cons, List.mapM_nil,
      cosineSimilarity_one]
    rfl
  · rfl

/-- C4 (amended): a candidate is excluded exactly when its lowercased word
is verbatim a member of `excludeWords`; hence every word in the ranker's
output, once lowercased, is not a member of `excludeWords` (case-
insensitive exclusion therefore holds only when the `excludeWords` entries
are themselves lowercase). -/
theorem claimC4 {α : Type} [LinearOrderedField α] (sqrt : α → α) (targetVector : List α)
    (candidateVectors : List (Candidate α)) (topK : Nat) (excludeWords : List String)
    (out : List (RankedResult α))
    (hok : findMostSimilar sqrt targetVector candidateVectors topK excludeWords
      = Except.ok out) :
    ∀ r ∈ out, ¬ excludeWords.contains (toLowerCase r.word) = true := by
  intro r hr
  obtain ⟨c, hc, s, hcs, rfl⟩ := findMostSimilar_ok_mem hok r hr
  have hmem := List.of_mem_filter hc
  simpa using hmem

/-- C4 (witness): the amended exclusion invariant applied to a concrete
run whose output contains "Man" while "other" is excluded. -/
theorem claimC4_witness :
    ¬ ["other"].contains (toLowerCase (RankedResult.word (⟨"Man", (1 : ℝ), none⟩ : RankedResult ℝ))) = true := by
  have hok : findMostSimilar Real.sqrt [(1 : ℝ)] [⟨[(1 : ℝ)], "Man", none⟩] 3 ["other"]
      = Except.ok [⟨"Man", 1, none⟩] := by
    have hkept : keptCandidates ["other"] [⟨[(1 : ℝ)], "Man", none⟩]
        = [⟨[(1 : ℝ)], "Man", none⟩] := rfl
    rw [findMostSimilar, hkept, scoreCandidates, List.mapM_cons, List.mapM_nil,
      cosineSimilarity_one]
    rfl
  exact claimC4 Real.sqrt [(1 : ℝ)] [⟨[(1 : ℝ)], "Man", none⟩] 3 ["other"]
    [⟨"Man", 1, none⟩] hok ⟨"Man", 1, none⟩ (List.mem_singleton.mpr rfl)

/-- C5: when every candidate vector has the target's dimension, the ranker
succeeds and its output is the `topK`-prefix of a descending,
stable sort of the in-input-order scored list: adjacent output entries are
ordered by non-increasing similarity, elements of equal similarity keep
their original input order, and the output has at most `topK` entries. -/
theorem claimC5 {α : Type} [LinearOrderedField α] (sqrt : α → α) (targetVector : List α)
    (candidateVectors : List (Candidate α)) (topK : Nat) (excludeWords : List String)
    (hdim : ∀ c ∈ candidateVectors, c.vector.length = targetVector.length) :
    ∃ scored,
      scoreCandidates sqrt targetVector (keptCandidates excludeWords candidateVectors)
        = Except.ok scored
      ∧ findMostSimilar sqrt targetVector candidateVectors topK excludeWords
        = Except.ok ((sortBySimilarityDesc scored).take topK)
      ∧ (sortBySimilarityDesc scored).Pairwise (fun a b => b.similarity ≤ a.similarity)
      ∧ (∀ s : α, (sortBySimilarityDesc scored).filter (fun r => r.similarity = s)
          = scored.filter (fun r => r.similarity = s))
      ∧ ((sortBySimilarityDesc scored).take topK).length ≤ topK := by
  have hsub : ∀ c ∈ keptCandidates excludeWords candidateVectors,
      c.vector.length = targetVector.length := by
    intro c hc
    exact hdim c (List.mem_of_mem_filter hc)
  obtain ⟨scored, hsc⟩ := scoreCandidates_ok sqrt hsub
  refine ⟨scored, hsc, ?_, pairwise_sortBySimilarityDesc scored,
    fun s => filter_sortBySimilarityDesc s scored, List.length_take_le topK _⟩
  rw [findMostSimilar, hsc]
  rfl

/-- C5 (witness): the ranking theorem applied to a concrete
one-candidate input of matching dimension. -/
theorem claimC5_witness :
    ∃ scored,
      scoreCandidates Real.sqrt [(1 : ℝ)] (keptCandidates [] [⟨[(1 : ℝ)], "a", none⟩])
        = Except.ok scored
      ∧ findMostSimilar Real.sqrt [(1 : ℝ)] [⟨[(1 : ℝ)], "a", none⟩] 3 []
        = Except.ok ((sortBySimilarityDesc scored).take 3)
      ∧ (sortBySimilarityDesc scored).Pairwise (fun a b => b.similarity ≤ a.similarity)
      ∧ (∀ s : ℝ, (sortBySimilarityDesc scored).filter (fun r => r.similarity = s)
          = scored.filter (fun r => r.similarity = s))
      ∧ ((sortBySimilarityDesc scored).take 3).length ≤ 3 :=
  claimC5 Real.sqrt [(1 : ℝ)] [⟨[(1 : ℝ)], "a", none⟩] 3 []
    (by intro c hc; rw [List.mem_singleton] at hc; subst hc; rfl)

/-- C6: each binary vector operation — add, subtract, cosine similarity,
Euclidean distance, Manhattan distance — fails with the dimension-mismatch
error carrying both lengths exactly when the input lengths differ, and
succeeds whenever they agree. -/
theorem claimC6 {α : Type} [LinearOrderedField α] (sqrt : α → α) (v1 v2 : List α) :
    ((v1.length ≠ v2.length → addVectors v1 v2 = Except.error ⟨v1.length, v2.length⟩)
      ∧ (v1.length = v2.length → ∃ r, addVectors v1 v2 = Except.ok r))
    ∧ ((v1.length ≠ v2.length → subtractVectors v1 v2 = Except.error ⟨v1.length, v2.length⟩)
      ∧ (v1.length = v2.length → ∃ r, subtractVectors v1 v2 = Except.ok r))
    ∧ ((v1.length ≠ v2.length →
        cosineSimilarity sqrt v1 v2 = Except.error ⟨v1.length, v2.length⟩)
      ∧ (v1.length = v2.length → ∃ r, cosineSimilarity sqrt v1 v2 = Except.ok r))
    ∧ ((v1.length ≠ v2.length →
        euclideanDistance sqrt v1 v2 = Except.error ⟨v1.length, v2.length⟩)
      ∧ (v1.length = v2.length → ∃ r, euclideanDistance sqrt v1 v2 = Except.ok r))
    ∧ ((v1.length ≠ v2.length → manhattanDistance v1 v2 = Except.error ⟨v1.length, v2.length⟩)
      ∧ (v1.length = v2.length → ∃ r, manhattanDistance v1 v2 = Except.ok r)) := by
  refine ⟨?_, ?_, ?_, ?_, ?_⟩ <;> constructor <;> intro h
  · rw [addVectors, if_pos h]
  · exact ⟨_, by rw [addVectors, if_neg (by simp [h])]⟩
  · rw [subtractVectors, if_pos h]
  · exact ⟨_, by rw [subtractVectors, if_neg (by simp [h])]⟩
  · rw [cosineSimilarity, if_pos h]
  · exact cosineSimilarity_ok_of_length sqrt h
  · rw [euclideanDistance, if_pos h]
  · exact ⟨_, by rw [euclideanDistance, if_neg (by simp [h])]⟩
  · rw [manhattanDistance, if_pos h]
  · exact ⟨_, by rw [manhattanDistance, if_neg (by simp [h])]⟩

/-- C6 (witness): mismatched one- and two-dimensional inputs produce the
error carrying both lengths; equal-length inputs succeed. -/
theorem claimC6_witness :
    addVectors [(1 : ℝ)] [1, 2] = Except.error ⟨1, 2⟩
    ∧ manhattanDistance [(1 : ℝ)] [1, 2] = Except.error ⟨1, 2⟩
    ∧ ∃ r, cosineSimilarity Real.sqrt [(1 : ℝ)] [2] = Except.ok r := by
  refine ⟨?_, ?_, ?_⟩
  · exact (claimC6 Real.sqrt [(1 : ℝ)] [1, 2]).1.1 (by decide)
  · exact (claimC6 Real.sqrt [(1 : ℝ)] [1, 2]).2.2.2.2.1 (by decide)
  · exact (claimC6 Real.sqrt [(1 : ℝ)] [2]).2.2.1.2 (by decide)

/-- C7: the mock (synthetic fallback) embedding has the configured
dimension 384, unit magnitude, and is deterministic — it depends on the
input text only through the seed derived from it, so equal texts (equal
seeds) yield equal vectors.  Being a total function, it never fails. -/
theorem claimC7 (text : String) :
    (generateMockEmbedding Real.sqrt text).length = 384
    ∧ Real.sqrt (sumSq (generateMockEmbedding Real.sqrt text)) = 1
    ∧ (∀ t2 : String, mockSeed t2 = mockSeed text →
        generateMockEmbedding Real.sqrt t2 = generateMockEmbedding Real.sqrt text) := by
  refine ⟨?_, ?_, fun t2 h => ?_⟩
  · rw [generateMockEmbedding]
    simp [length_mockEntries, embeddingDimension]
  · have hpos : 0 < sumSq (mockEntries (α := ℝ) embeddingDimension (mockSeed text)) :=
      sumSq_mockEntries_pos (mockSeed text)
    have hne : Real.sqrt (sumSq (mockEntries (α := ℝ) embeddingDimension (mockSeed text))) ≠ 0 :=
      (Real.sqrt_pos.mpr hpos).ne'
    simpa [generateMockEmbedding] using
      unit_magnitude_of_div (mockEntries embeddingDimension (mockSeed text)) hne
  · rw [generateMockEmbedding, generateMockEmbedding, h]

/-- C7 (witness): the mock-embedding theorem applied to the text
"apple". -/
theorem claimC7_witness :
    (generateMockEmbedding Real.sqrt "apple").length = 384
    ∧ Real.sqrt (sumSq (generateMockEmbedding Real.sqrt "apple")) = 1
    ∧ generateMockEmbedding Real.sqrt "apple" = generateMockEmbedding Real.sqrt "apple" :=
  ⟨(claimC7 "apple").1, (claimC7 "apple").2.1, (claimC7 "apple").2.2 "apple" rfl⟩

theorem getBatchEmbeddings_cons {α : Type} [LinearOrderedField α]
    (resolve : String → Option (List α)) (t : String) (rest : List String) :
    getBatchEmbeddings resolve (t :: rest)
      = match resolve t with
        | some e => (e :: (getBatchEmbeddings resolve rest).1,
            (getBatchEmbeddings resolve rest).2)
        | none => (List.replicate 384 0 :: (getBatchEmbeddings resolve rest).1,
            t :: (getBatchEmbeddings resolve rest).2) := rfl

set_option maxRecDepth 4000 in
/-- C8: the batch resolver returns exactly one vector per input text, in
input order — the resolved embedding when resolution succeeds and the
384-dimensional zero vector when it fails — and logs exactly the failing
texts (in order), rather than aborting the batch. -/
theorem claimC8 {α : Type} [LinearOrderedField α] (resolve : String → Option (List α))
    (texts : List String) :
    (getBatchEmbeddings resolve texts).1
      = texts.map (fun text => (resolve text).getD (List.replicate 384 0))
    ∧ (getBatchEmbeddings resolve texts).1.length = texts.length
    ∧ (getBatchEmbeddings resolve texts).2
      = texts.filter (fun text => (resolve text).isNone) := by
  induction texts with
  | nil => exact ⟨rfl, rfl, rfl⟩
  | cons t rest ih =>
    obtain ⟨ih1, ih2, ih3⟩ := ih
    cases hres : resolve t with
    | some e =>
      rw [getBatchEmbeddings_cons, hres]
      refine ⟨?_, ?_, ?_⟩
      · simp [hres, ih1]
      · simp [ih2]
      · simp [hres, ih3, List.filter_cons]
    | none =>
      rw [getBatchEmbeddings_cons, hres]
      refine ⟨?_, ?_, ?_⟩
      · simp [hres, ih1]
      · simp [ih2]
      · simp [hres, ih3, List.filter_cons]

/-- C9: `normalizeVector` returns a unit-magnitude vector whenever the
input's magnitude is nonzero, and returns the input unchanged when the
magnitude is zero. -/
theorem claimC9 (v : List ℝ) :
    (Real.sqrt (sumSq v) ≠ 0 → Real.sqrt (sumSq (normalizeVector Real.sqrt v)) = 1)
    ∧ (Real.sqrt (sumSq v) = 0 → normalizeVector Real.sqrt v = v) := by
  constructor
  · intro h
    rw [normalizeVector]
    simp only [if_neg h]
    exact unit_magnitude_of_div v h
  · intro h
    rw [normalizeVector]
    simp only [if_pos h]

/-- C9 (witness): the normalization theorem applied to `[3, 4]`
(magnitude 5 ≠ 0) and to the zero-magnitude empty vector. -/
theorem claimC9_witness :
    Real.sqrt (sumSq (normalizeVector Real.sqrt [(3 : ℝ), 4])) = 1
    ∧ normalizeVector Real.sqrt ([] : List ℝ) = [] := by
  have h34 : Real.sqrt (sumSq [(3 : ℝ), 4]) ≠ 0 := by
    have hs : sumSq [(3 : ℝ), 4] = 25 := by norm_num [sumSq]
    rw [hs]
    exact (Real.sqrt_pos.mpr (by norm_num)).ne'
  have h0 : Real.sqrt (sumSq ([] : List ℝ)) = 0 := by
    rw [sumSq_nil, Real.sqrt_zero]
  exact ⟨(claimC9 [(3 : ℝ), 4]).1 h34, (claimC9 ([] : List ℝ)).2 h0⟩

/-- C10: cosine similarity of equal-length real vectors always succeeds
with a value in [-1, 1], and consequently every similarity carried by a
`RankedResult` in a successful ranker output lies in [-1, 1]. -/
theorem claimC10 :
    (∀ (v1 v2 : List ℝ), v1.length = v2.length →
      ∃ r, cosineSimilarity Real.sqrt v1 v2 = Except.ok r ∧ -1 ≤ r ∧ r ≤ 1)
    ∧ (∀ (targetVector : List ℝ) (candidateVectors : List (Candidate ℝ)) (topK : Nat)
        (excludeWords : List String) (out : List (RankedResult ℝ)),
        findMostSimilar Real.sqrt targetVector candidateVectors topK excludeWords
          = Except.ok out →
        ∀ r ∈ out, -1 ≤ r.similarity ∧ r.similarity ≤ 1) := by
  constructor
  · intro v1 v2 h
    obtain ⟨r, hr⟩ := cosineSimilarity_ok_of_length Real.sqrt h
    exact ⟨r, hr, cosineSimilarity_ok_range hr⟩
  · intro targetVector candidateVectors topK excludeWords out hok r hr
    obtain ⟨c, _, s, hcs, rfl⟩ := findMostSimilar_ok_mem hok r hr
    exact cosineSimilarity_ok_range hcs

/-- C10 (witness): both parts applied at concrete inputs: equal-length
vectors `[1]`, `[1]`, and a one-candidate ranker run. -/
theorem claimC10_witness :
    (∃ r, cosineSimilarity Real.sqrt [(1 : ℝ)] [1] = Except.ok r ∧ -1 ≤ r ∧ r ≤ 1)
    ∧ (-1 ≤ (RankedResult.similarity (⟨"a", (1 : ℝ), none⟩ : RankedResult ℝ))
        ∧ (RankedResult.similarity (⟨"a", (1 : ℝ), none⟩ : RankedResult ℝ)) ≤ 1) := by
  constructor
  · exact claimC10.1 [(1 : ℝ)] [1] rfl
  · have hok : findMostSimilar Real.sqrt [(1 : ℝ)] [⟨[(1 : ℝ)], "a", none⟩] 3 []
        = Except.ok [⟨"a", 1, none⟩] := by
      have hkept : keptCandidates [] [⟨[(1 : ℝ)], "a", none⟩]
          = [⟨[(1 : ℝ)], "a", none⟩] := rfl
      rw [findMostSimilar, hkept, scoreCandidates, List.mapM_cons, List.mapM_nil,
        cosineSimilarity_one]
      rfl
    exact claimC10.2 [(1 : ℝ)] [⟨[(1 : ℝ)], "a", none⟩] 3 [] [⟨"a", 1, none⟩] hok
      ⟨"a", 1, none⟩ (List.mem_singleton.mpr rfl)

end WordMath
